import Mathlib

/-!
Verification of the future/promise primitive in `src/async/promise.go`.

Two shallow embeddings are used, matching the two levels at which the
claims speak:

* `PromiseGo` — a channel-level model of the `Promise[T]` struct.  The Go
  struct holds three buffered channels of capacity 1 (`result`, `err`,
  `done`), a `state` field, a `value T` field (zero-initialised) and a
  nil-able `error` field.  A buffered channel is modelled as a `List` of
  buffered messages; receiving from an empty channel of an already
  settled promise blocks forever, which the model renders as `none`
  (the producer goroutine sends exactly one message on `done` and at most
  one on `result`/`err`, so after settlement no further send can unblock
  a receiver).

* the timed denotational model (`Timed`/`TFuture`, in the same
  namespace) — used for the combinators `All`, `AllSettled`, `Race`,
  `Any`, `Sleep`, `Timeout`, whose claims are about which input settles
  first and when the derived promise settles.  A settling future is a
  settlement time (`Nat`) together with its outcome; `none : TFuture T`
  is a future that never settles.  Each combinator awaits every input in
  its own goroutine exactly once, so the single-use-channel defects of
  the cell model do not interfere here; ties in settlement time are
  resolved in favour of the earlier input in argument order (the Go
  `select` leaves ties unspecified).

Go `error` values produced by the package all come from `fmt.Errorf`
with a fixed format string; `GoErr` has one constructor per format
string, keeping wrapped errors structured.
-/

namespace PromiseGo

/-- `PromiseState` from promise.go: `Pending | Fulfilled | Rejected`. -/
inductive PromiseState where
| Pending
| Fulfilled
| Rejected
deriving DecidableEq, Repr

/-- Errors created by the package, one constructor per `fmt.Errorf` site:
`"panic: %v"` in the producer's recover handler, `"promise timeout after %v"`
in `AwaitWithTimeout`, `"operation timed out after %v"` in `Timeout`,
`"all promises rejected: %v"` in `Any`, and `errorf` for any other error
value a producer may return. -/
inductive GoErr where
| errorf (msg : String)
| panicMsg (payload : String)
| awaitTimeout (d : Nat)
| opTimeout (d : Nat)
| allRejected (errs : List GoErr)

/-- The `Promise[T]` struct: three capacity-1 buffered channels (as lists of
buffered messages), the state, the zero-initialised value field and the
nil-able error field. -/
structure Promise (T : Type) where
  result : List T
  err    : List GoErr
  done   : List Bool
  state  : PromiseState
  value  : T
  error  : Option GoErr

/-- How one run of the executor ends: a value with nil error, a non-nil
error, or a panic (caught by the deferred `recover`). -/
inductive ExecOutcome (T : Type) where
| ok (v : T)
| fail (e : GoErr)
| panicked (payload : String)

/-- The promise as built by `NewPromise` before its goroutine settles it:
empty channels, `Pending`, zero value, nil error. -/
def initPromise [Inhabited T] : Promise T :=
  ⟨[], [], [], .Pending, default, none⟩

/-- The body of the goroutine spawned by `NewPromise`, applied at the moment
the executor finishes: on a non-nil error or a recovered panic it sets
`state`/`error` and sends on `err` then `done`; on success it sets
`state`/`value` and sends on `result` then `done`. -/
def runProducer (p : Promise T) : ExecOutcome T → Promise T
| .ok v =>
  { p with
    state := .Fulfilled
    value := v
    result := p.result ++ [v]
    done := p.done ++ [true] }
| .fail e =>
  { p with
    state := .Rejected
    error := some e
    err := p.err ++ [e]
    done := p.done ++ [true] }
| .panicked s =>
  { p with
    state := .Rejected
    error := some (.panicMsg s)
    err := p.err ++ [GoErr.panicMsg s]
    done := p.done ++ [true] }

/-- `NewPromise`, observed after its executor has finished with outcome `r`. -/
def NewPromise [Inhabited T] (r : ExecOutcome T) : Promise T :=
  runProducer initPromise r

/-- `Resolve(value)`: struct literal with state `Fulfilled`, the value stored,
one message buffered on `result` and one on `done`. -/
def Resolve (v : T) : Promise T :=
  ⟨[v], [], [true], .Fulfilled, v, none⟩

/-- `Reject(err)`: struct literal with state `Rejected`, the error stored,
one message buffered on `err` and one on `done`. -/
def Reject [Inhabited T] (e : GoErr) : Promise T :=
  ⟨[], [e], [true], .Rejected, default, some e⟩

/-- `Promise.Await`: `<-p.done`, then return `(p.value, nil)` when
`Fulfilled`, else `(zero, p.error)`.  On a settled promise whose `done`
buffer is empty the receive blocks forever (`none`): the producer sends
exactly one message on `done` and never another. -/
def Await [Inhabited T] (p : Promise T) : Option ((T × Option GoErr) × Promise T) :=
  match p.done with
  | [] => none
  | _ :: rest =>
    if p.state = .Fulfilled then some ((p.value, none), { p with done := rest })
    else some ((default, p.error), { p with done := rest })

/-- `Promise.AwaitWithTimeout`: a `select` between `<-p.done` and a timer of
`d`.  `doneFirst` records which arm is ready first: `true` when the promise
settles within `d` (the select then consumes the `done` message and calls
`p.Await()` on the drained promise), `false` when the timer fires first
(returns `(zero, "promise timeout after d")` and leaves `p` untouched). -/
def AwaitWithTimeout [Inhabited T] (p : Promise T) (doneFirst : Bool) (d : Nat) :
    Option ((T × Option GoErr) × Promise T) :=
  if doneFirst then
    match p.done with
    | [] => none
    | _ :: rest => Await { p with done := rest }
  else
    some ((default, some (.awaitTimeout d)), p)

/-- The `select { case result := <-p.result: ... case err := <-p.err: }`
performed by the executors of `Then` and `Catch`: receive the buffered value
or the buffered error; when both capacity-1 buffers are already drained the
select blocks forever (`none`). -/
def recvResultOrErr (p : Promise T) : Option (Except GoErr T × Promise T) :=
  match p.result with
  | v :: rest => some (.ok v, { p with result := rest })
  | [] =>
    match p.err with
    | e :: rest => some (.error e, { p with err := rest })
    | [] => none

/-- `Then(p, onFulfilled, onRejected)`: a `NewPromise` whose executor does
`recvResultOrErr` on `p`.  Result: the derived promise (`none` when the
executor blocks forever, leaving the derived promise `Pending` forever)
paired with `p` as the read leaves it. -/
def Then [Inhabited U] (p : Promise T) (onFulfilled : Option (T → U))
    (onRejected : Option (GoErr → U)) : Option (Promise U) × Promise T :=
  match recvResultOrErr p with
  | some (.ok v, q) =>
    (some (match onFulfilled with
           | some f => NewPromise (.ok (f v))
           | none => NewPromise (.ok default)), q)
  | some (.error e, q) =>
    (some (match onRejected with
           | some g => NewPromise (.ok (g e))
           | none => NewPromise (.fail e)), q)
  | none => (none, p)

/-- `Catch(p, onRejected)`: a `NewPromise` whose executor does
`recvResultOrErr` on `p`; a received value is returned as is, a received
error goes through the handler when one is supplied.  Result as in `Then`. -/
def Catch [Inhabited T] (p : Promise T) (onRejected : Option (GoErr → T)) :
    Option (Promise T) × Promise T :=
  match recvResultOrErr p with
  | some (.ok v, q) => (some (NewPromise (.ok v)), q)
  | some (.error e, q) =>
    (some (match onRejected with
           | some g => NewPromise (.ok (g e))
           | none => NewPromise (.fail e)), q)
  | none => (none, p)

/-- A list of successive samples of a promise's `state` is monotonic when a
non-`Pending` sample is never followed by a different one. -/
def monotonicStates : List PromiseState → Bool
| [] => true
| [_] => true
| a :: b :: rest =>
  (decide (a = PromiseState.Pending) || decide (a = b)) && monotonicStates (b :: rest)

/-- The two states a `NewPromise` ever exhibits: at construction and after
its producer settles it with outcome `r`. -/
def stateTrace (T : Type) [Inhabited T] (r : ExecOutcome T) : List PromiseState :=
  [(initPromise (T := T)).state, (NewPromise (T := T) r).state]

/-! ### Timed denotational model of the combinators -/

/-- A future that settles: the instant it settles and its outcome. -/
structure Timed (T : Type) where
  time : Nat
  out  : Except GoErr T

/-- A future in the timed model: `none` never settles. -/
abbrev TFuture (T : Type) := Option (Timed T)

/-- `true` on a fulfilled outcome. -/
def okOut : Except GoErr T → Bool
| .ok _ => true
| .error _ => false

/-- The instant `sync.WaitGroup.Wait` returns when every input has been
awaited by its own goroutine: the latest settlement instant. -/
def maxTime : List (Timed T) → Nat
| [] => 0
| p :: rest => max p.time (maxTime rest)

/-- The post-`Wait` scan of `All`: the first non-nil entry of the `errors`
slice in input order. -/
def firstFault : List (Timed T) → Option GoErr
| [] => none
| p :: rest =>
  match p.out with
  | .error e => some e
  | .ok _ => firstFault rest

/-- The `results` slice of `All` after every goroutine has run: the value at
each fulfilled index, the zero value at rejected ones. -/
def resultsArr [Inhabited T] (ps : List (Timed T)) : List T :=
  ps.map fun p =>
    match p.out with
    | .ok v => v
    | .error _ => default

/-- `All(promises...)`: one goroutine per input awaits it and records value
or error by index; after `wg.Wait()` (so at the latest settlement instant)
the error slice is scanned in index order and the first error, if any, is
returned, else the ordered value list. -/
def All [Inhabited T] (ps : List (Timed T)) : Timed (List T) :=
  { time := maxTime ps
    out := match firstFault ps with
           | some e => .error e
           | none => .ok (resultsArr ps) }

/-- `PromiseResult[T]` from promise.go: status string, value (zero when
rejected) and reason (nil when fulfilled). -/
structure PromiseResult (T : Type) where
  status : String
  value  : T
  reason : Option GoErr

/-- The record one `AllSettled` goroutine stores for its input. -/
def settleRecord [Inhabited T] (p : Timed T) : PromiseResult T :=
  match p.out with
  | .ok v => ⟨"fulfilled", v, none⟩
  | .error e => ⟨"rejected", default, some e⟩

/-- `AllSettled(promises...)`: every input is awaited, its record stored at
its own index, and after `wg.Wait()` the record list is returned with a nil
error. -/
def AllSettled [Inhabited T] (ps : List (Timed T)) : Timed (List (PromiseResult T)) :=
  ⟨maxTime ps, .ok (ps.map settleRecord)⟩

/-- `Race(promises...)`: one goroutine per input awaits it and offers its
outcome; the executor returns the first outcome offered, i.e. that of the
input with the least settlement instant (ties go to the earlier argument;
the Go `select` leaves them unspecified).  With no settling input the
`select` blocks forever and the race never settles. -/
def Race : List (TFuture T) → TFuture T
| [] => none
| none :: rest => Race rest
| some p :: rest =>
  match Race rest with
  | none => some p
  | some q => some (if q.time < p.time then q else p)

/-- The errors slice accumulated by `Any` in completion order: faults listed
by settlement instant (insertion keeps earlier instants first). -/
def insertByTime (p : Timed T) : List (Timed T) → List (Timed T)
| [] => [p]
| q :: rest => if p.time < q.time then p :: q :: rest else q :: insertByTime p rest

/-- Inputs sorted by settlement instant, the order in which the `Any`
goroutines finish. -/
def byTime : List (Timed T) → List (Timed T)
| [] => []
| p :: rest => insertByTime p (byTime rest)

/-- The faults `Any` appends, in completion order. -/
def faultsOf (ps : List (Timed T)) : List GoErr :=
  (byTime ps).filterMap fun p =>
    match p.out with
    | .error e => some e
    | .ok _ => none

/-- The first input to fulfill: among fulfilled inputs, the one with the
least settlement instant (ties to the earlier argument); `none` when no
input fulfills. -/
def firstToFulfill : List (Timed T) → Option (Timed T)
| [] => none
| p :: rest =>
  match p.out with
  | .error _ => firstToFulfill rest
  | .ok _ =>
    match firstToFulfill rest with
    | none => some p
    | some q => some (if q.time < p.time then q else p)

/-- `Any(promises...)`: each goroutine awaits its input, offering a value on
the capacity-1 `result` channel or appending the error; the executor returns
the first value offered (the earliest fulfilled input), or, once `wg.Wait()`
closes the channel — at the latest settlement instant — rejects with
`"all promises rejected: %v"` over the accumulated error slice. -/
def Any (ps : List (Timed T)) : Timed T :=
  match firstToFulfill ps with
  | some w => w
  | none => ⟨maxTime ps, .error (.allRejected (faultsOf ps))⟩

/-- `Sleep(duration, value)`: a `NewPromise` whose executor sleeps `d` and
then returns `(value, nil)` — it fulfills. -/
def Sleep (d : Nat) (v : T) : Timed T :=
  ⟨d, .ok v⟩

/-- The second argument `Timeout` passes to `Race`: an inline `NewPromise`
whose executor sleeps `d` and then returns
`(zero, "operation timed out after d")` — it rejects. -/
def timeoutArm (T : Type) (d : Nat) : Timed T :=
  ⟨d, .error (.opTimeout d)⟩

/-- `Timeout(promise, duration)`: `Race` of the input against the inline
delayed rejection. -/
def Timeout (f : TFuture T) (d : Nat) : TFuture T :=
  Race [f, some (timeoutArm T d)]

/-- Modelled from the spec formula `Race(f, Sleep(d, TimeoutFault))` in the
combinator table: the second arm is the library's `Sleep`, whose value is
the timeout fault itself.  `Sleep` fulfills with its value, so this is only
typable when the value type can hold a fault; it is stated at `T = GoErr`
for comparison with `Timeout`. -/
def specTimeout (f : TFuture GoErr) (d : Nat) : TFuture GoErr :=
  Race [f, some (Sleep d (GoErr.opTimeout d))]

/-- The state an observer samples at instant `t` on a future of the timed
model. -/
def stateAt (f : TFuture T) (t : Nat) : PromiseState :=
  match f with
  | none => .Pending
  | some p =>
    if t < p.time then .Pending
    else match p.out with
         | .ok _ => .Fulfilled
         | .error _ => .Rejected

/-- `Await` on a future of the timed model: the settled outcome, or `none`
when the future never settles and the receive on `done` blocks forever. -/
def AwaitTimed : TFuture T → Option (Except GoErr T)
| none => none
| some p => some p.out

/-! ### Helper lemmas -/

theorem time_le_maxTime {T : Type} {ps : List (Timed T)} {p : Timed T}
    (hp : p ∈ ps) : p.time ≤ maxTime ps := by
  induction ps with
  | nil => cases hp
  | cons q rest ih =>
    rcases List.mem_cons.1 hp with h | h
    · subst h; exact le_max_left _ _
    · exact le_trans (ih h) (le_max_right _ _)

theorem firstFault_none {T : Type} {ps : List (Timed T)}
    (h : firstFault ps = none) : ∀ p ∈ ps, okOut p.out = true := by
  induction ps with
  | nil => intro p hp; cases hp
  | cons q rest ih =>
    intro p hp
    rcases hq : q.out with e | v
    · simp [firstFault, hq] at h
    · rcases List.mem_cons.1 hp with h2 | h2
      · subst h2; simp [okOut, hq]
      · exact ih (by simpa [firstFault, hq] using h) p h2

theorem mem_insertByTime {T : Type} {p x : Timed T} {l : List (Timed T)} :
    x ∈ insertByTime p l ↔ x = p ∨ x ∈ l := by
  induction l with
  | nil => simp [insertByTime]
  | cons q rest ih =>
    by_cases h : p.time < q.time
    · simp [insertByTime, h, List.mem_cons]
    · simp only [insertByTime, if_neg h, List.mem_cons, ih]
      tauto

theorem mem_byTime {T : Type} {x : Timed T} {l : List (Timed T)} :
    x ∈ byTime l ↔ x ∈ l := by
  induction l with
  | nil => simp [byTime]
  | cons q rest ih => simp [byTime, mem_insertByTime, ih]

theorem fault_mem_faultsOf {T : Type} {ps : List (Timed T)} {p : Timed T}
    (hp : p ∈ ps) {e : GoErr} (he : p.out = .error e) : e ∈ faultsOf ps := by
  refine List.mem_filterMap.2 ⟨p, mem_byTime.2 hp, ?_⟩
  simp [he]

theorem firstToFulfill_none {T : Type} {ps : List (Timed T)}
    (h : firstToFulfill ps = none) : ∀ p ∈ ps, okOut p.out = false := by
  induction ps with
  | nil => intro p hp; cases hp
  | cons q rest ih =>
    intro p hp
    rcases hq : q.out with e | v
    · rcases List.mem_cons.1 hp with h2 | h2
      · subst h2; simp [okOut, hq]
      · exact ih (by simpa [firstToFulfill, hq] using h) p h2
    · exfalso
      simp only [firstToFulfill, hq] at h
      rcases h2 : firstToFulfill rest with - | w <;> simp [h2] at h

theorem firstToFulfill_some {T : Type} {ps : List (Timed T)} {w : Timed T}
    (h : firstToFulfill ps = some w) :
    w ∈ ps ∧ okOut w.out = true ∧
      ∀ p ∈ ps, okOut p.out = true → w.time ≤ p.time := by
  induction ps generalizing w with
  | nil => simp [firstToFulfill] at h
  | cons q rest ih =>
    rcases hq : q.out with e | v
    · simp only [firstToFulfill, hq] at h
      obtain ⟨hr, hrok, hrmin⟩ := ih h
      refine ⟨List.mem_cons.2 (Or.inr hr), hrok, ?_⟩
      intro p hp hok
      rcases List.mem_cons.1 hp with h3 | h3
      · subst h3; exact absurd hok (by simp [okOut, hq])
      · exact hrmin p h3 hok
    · simp only [firstToFulfill, hq] at h
      rcases h2 : firstToFulfill rest with - | r
      · rw [h2] at h
        obtain rfl : q = w := by simpa using h
        refine ⟨List.mem_cons_self _ _, by simp [okOut, hq], ?_⟩
        intro p hp hok
        rcases List.mem_cons.1 hp with h3 | h3
        · subst h3; exact le_refl _
        · exact absurd hok (by simp [firstToFulfill_none h2 p h3])
      · rw [h2] at h
        obtain ⟨hr, hrok, hrmin⟩ := ih h2
        obtain rfl : (if r.time < q.time then r else q) = w := by simpa using h
        by_cases hlt : r.time < q.time
        · refine ⟨by simp [hlt, List.mem_cons.2 (Or.inr hr)], by simp [hlt, hrok], ?_⟩
          intro p hp hok
          rcases List.mem_cons.1 hp with h3 | h3
          · subst h3; simp [hlt]; exact le_of_lt hlt
          · simp only [if_pos hlt]; exact hrmin p h3 hok
        · refine ⟨by simp [hlt], by simp [hlt, okOut, hq], ?_⟩
          intro p hp hok
          rcases List.mem_cons.1 hp with h3 | h3
          · subst h3; simp [hlt]
          · simp only [if_neg hlt]
            exact le_trans (le_of_not_lt hlt) (hrmin p h3 hok)

/-! ### Claim theorems -/

/-- C1: the claim says every caller of `Await` on a settled promise gets the
settled value, however many times it is called.  The code violates it: the
producer sends a single message on the capacity-1 `done` channel, so the
first `Await` on `Resolve(7)` returns `(7, nil)` and drains `done`, and a
second `Await` on the same promise receives on the now and forever empty
`done` channel — it blocks forever instead of returning `(7, nil)` again. -/
theorem second_await_on_settled_promise_blocks :
    Await (Resolve (7 : Nat)) =
      some ((7, none), ⟨[7], [], [], .Fulfilled, 7, none⟩) ∧
    Await (⟨[7], [], [], .Fulfilled, 7, none⟩ : Promise Nat) = none :=
  ⟨rfl, rfl⟩

/-- C2: the claim says `AwaitWithTimeout` returns the settled value when the
promise settles within the timeout.  The code violates it: when the `done`
arm of the select fires, the select itself consumes the only `done` message
and then calls `p.Await()`, which blocks forever on the drained channel
(first conjunct).  The timeout arm does behave as claimed: it returns the
timeout fault, leaves the promise untouched and still `Pending`, and a later
settlement is still observable by a plain `Await` (remaining conjuncts). -/
theorem awaitWithTimeout_deadlocks_after_timely_settlement :
    AwaitWithTimeout (Resolve (7 : Nat)) true 5 = none ∧
    AwaitWithTimeout (initPromise : Promise Nat) false 5 =
      some ((0, some (.awaitTimeout 5)), initPromise) ∧
    (initPromise : Promise Nat).state = .Pending ∧
    Await (runProducer (initPromise : Promise Nat) (.ok 7)) =
      some ((7, none), ⟨[7], [], [], .Fulfilled, 7, none⟩) :=
  ⟨rfl, rfl, rfl, rfl⟩

/-- C3: the claim says combinators read the stored terminal value rather
than draining a single-use channel, so two combinators attached to the same
settled promise both settle with its value.  The code violates it: the
executor of `Catch`/`Then` receives directly from the capacity-1 `result`
and `err` channels.  On `f = Resolve(7)`, the first `Catch(f, nil)` drains
`result` and yields a promise fulfilled with `7`, but a second `Catch` (or a
`Then`) on the same `f` finds both channels empty, its executor blocks
forever, and the derived promise never settles (`.1 = none`). -/
theorem combinators_drain_single_use_channels :
    (Catch (Resolve (7 : Nat)) none).1 = some (NewPromise (.ok 7)) ∧
    (NewPromise (T := Nat) (.ok 7)).state = .Fulfilled ∧
    (NewPromise (T := Nat) (.ok 7)).value = 7 ∧
    (Catch (Resolve (7 : Nat)) none).2 = ⟨[], [], [true], .Fulfilled, 7, none⟩ ∧
    (Catch (⟨[], [], [true], .Fulfilled, 7, none⟩ : Promise Nat) none).1 = none ∧
    (Then (⟨[], [], [true], .Fulfilled, 7, none⟩ : Promise Nat)
      (some fun x => x + 1) none).1 = none :=
  ⟨rfl, rfl, rfl, rfl, rfl, rfl⟩

/-- C8: a producer that panics instead of returning yields a promise settled
`Rejected` whose fault is the non-nil `"panic: %v"` error, and `Await` on it
returns that fault instead of hanging or propagating the panic. -/
theorem panic_contained_as_rejection (T : Type) [Inhabited T] (payload : String) :
    (NewPromise (T := T) (.panicked payload)).state = .Rejected ∧
    (NewPromise (T := T) (.panicked payload)).error = some (.panicMsg payload) ∧
    (NewPromise (T := T) (.panicked payload)).error ≠ none ∧
    Await (NewPromise (T := T) (.panicked payload)) =
      some ((default, some (.panicMsg payload)),
        ⟨[], [GoErr.panicMsg payload], [], .Rejected, default,
          some (.panicMsg payload)⟩) :=
  ⟨rfl, rfl, fun h => Option.noConfusion h, rfl⟩

/-- C8 witness: the panic containment facts at `T = Nat`, payload
`"boom"`. -/
theorem panic_contained_as_rejection_witness :
    (NewPromise (T := Nat) (.panicked "boom")).state = .Rejected ∧
    (NewPromise (T := Nat) (.panicked "boom")).error = some (.panicMsg "boom") ∧
    (NewPromise (T := Nat) (.panicked "boom")).error ≠ none ∧
    Await (NewPromise (T := Nat) (.panicked "boom")) =
      some ((0, some (.panicMsg "boom")),
        ⟨[], [GoErr.panicMsg "boom"], [], .Rejected, 0, some (.panicMsg "boom")⟩) :=
  panic_contained_as_rejection Nat "boom"

/-- C9: promise state is monotonic.  A `NewPromise` starts `Pending` with
empty channels, its single producer run moves it to exactly one terminal
state — `Fulfilled` with the value stored and a nil error, or `Rejected`
with the fault stored — and its two-sample state trace is monotonic;
`Resolve`/`Reject` literals start terminal; and `Await`, the only
other operation touching a settled promise, never changes `state`, `value`
or `error`. -/
theorem state_monotonic_settle_once (T : Type) [Inhabited T]
    (r : ExecOutcome T) (v : T) (e : GoErr) (s : String) :
    (initPromise (T := T)).state = .Pending ∧
    monotonicStates (stateTrace T r) = true ∧
    ((NewPromise (T := T) r).state = .Fulfilled ∨
      (NewPromise (T := T) r).state = .Rejected) ∧
    ((NewPromise (T := T) (.ok v)).state = .Fulfilled ∧
      (NewPromise (T := T) (.ok v)).value = v ∧
      (NewPromise (T := T) (.ok v)).error = none) ∧
    ((NewPromise (T := T) (.fail e)).state = .Rejected ∧
      (NewPromise (T := T) (.fail e)).error = some e) ∧
    ((NewPromise (T := T) (.panicked s)).state = .Rejected ∧
      (NewPromise (T := T) (.panicked s)).error = some (.panicMsg s)) ∧
    ((Resolve v).state = .Fulfilled ∧ (Resolve v).value = v) ∧
    ((Reject (T := T) e).state = .Rejected ∧
      (Reject (T := T) e).error = some e) ∧
    (∀ (p : Promise T) (x : T × Option GoErr) (q : Promise T),
      Await p = some (x, q) →
        q.state = p.state ∧ q.value = p.value ∧ q.error = p.error) := by
  refine ⟨rfl, ?_, ?_, ⟨rfl, rfl, rfl⟩, ⟨rfl, rfl⟩, ⟨rfl, rfl⟩, ⟨rfl, rfl⟩,
    ⟨rfl, rfl⟩, ?_⟩
  · rfl
  · cases r
    · exact Or.inl rfl
    · exact Or.inr rfl
    · exact Or.inr rfl
  · intro p x q h
    rcases hd : p.done with - | ⟨b, rest⟩
    · simp only [Await, hd] at h
      exact Option.noConfusion h
    · simp only [Await, hd] at h
      split at h <;>
      · injection h with h1
        injection h1 with ha hb
        subst hb
        exact ⟨rfl, rfl, rfl⟩

/-- C4 counterexample: on `All(f fulfilling at t=100, f rejecting at t=0)`
the code settles only at t=100 — after `wg.Wait()` has seen every input —
whereas the claim says it rejects promptly at the instant of the immediate
fault (t=0). -/
theorem all_fail_fast_refuted :
    All [(⟨100, .ok 1⟩ : Timed Nat), ⟨0, .error (.errorf "boom")⟩] =
      ⟨100, .error (.errorf "boom")⟩ ∧
    (All [(⟨100, .ok 1⟩ : Timed Nat), ⟨0, .error (.errorf "boom")⟩]).time ≠ 0 :=
  ⟨rfl, by decide⟩

/-- C4 amended: when any input rejects, `All` rejects with the first fault
in input order, but only after every input has settled: it settles at the
latest input settlement instant, never earlier than any input — it is not
fail-fast. -/
theorem all_waits_for_every_input (T : Type) [Inhabited T]
    (ps : List (Timed T)) :
    (All ps).time = maxTime ps ∧
    (∀ p ∈ ps, p.time ≤ (All ps).time) ∧
    (∀ e, firstFault ps = some e → (All ps).out = .error e) ∧
    (firstFault ps = none → (All ps).out = .ok (resultsArr ps)) ∧
    ((∃ p ∈ ps, okOut p.out = false) → ∃ e, (All ps).out = Except.error e) := by
  refine ⟨rfl, ?_, ?_, ?_, ?_⟩
  · intro p hp; exact time_le_maxTime hp
  · intro e he; simp [All, he]
  · intro he; simp [All, he]
  · rintro ⟨p, hp, hbad⟩
    rcases hf : firstFault ps with - | e2
    · exact absurd (firstFault_none hf p hp) (by simp [hbad])
    · exact ⟨e2, by simp [All, hf]⟩

/-- C4 witness: the amended facts on the counterexample pair — `All` waits
for the input settling at t=100 and rejects with the t=0 fault. -/
theorem all_waits_for_every_input_witness :
    (100 : Nat) ≤
      (All [(⟨100, .ok 1⟩ : Timed Nat), ⟨0, .error (.errorf "boom")⟩]).time ∧
    (All [(⟨100, .ok 1⟩ : Timed Nat), ⟨0, .error (.errorf "boom")⟩]).out =
      .error (.errorf "boom") := by
  obtain ⟨-, h2, h3, -, -⟩ :=
    all_waits_for_every_input Nat [⟨100, .ok 1⟩, ⟨0, .error (.errorf "boom")⟩]
  exact ⟨h2 ⟨100, .ok 1⟩ (List.Mem.head _), h3 (.errorf "boom") rfl⟩

/-- C5 counterexample: the library's `Sleep(d, v)` fulfills with `v`, so
`Race(f, Sleep(d, TimeoutFault))` fulfills with the fault as a value when
`d` elapses first, while `Timeout(f, d)` rejects: on a future fulfilling at
t=7 with deadline 5 the two differ. -/
theorem timeout_not_race_of_sleep :
    Timeout (some ⟨7, .ok (GoErr.errorf "v")⟩) 5 =
      some ⟨5, .error (.opTimeout 5)⟩ ∧
    specTimeout (some ⟨7, .ok (GoErr.errorf "v")⟩) 5 =
      some ⟨5, .ok (.opTimeout 5)⟩ ∧
    Timeout (some ⟨7, .ok (GoErr.errorf "v")⟩) 5 ≠
      specTimeout (some ⟨7, .ok (GoErr.errorf "v")⟩) 5 :=
  ⟨rfl, rfl, fun h => nomatch h⟩

/-- C5 amended: `Timeout(f, d)` is implemented as `Race` of `f` against an
inline delayed promise that rejects with the timeout fault after `d` (not
the library's `Sleep`, which fulfills with its value): it settles as `f`
does when `f` settles by `d` — fulfilling with the value if `f` fulfills,
rejecting if `f` rejects — and rejects with the timeout fault when `d`
elapses first. -/
theorem timeout_races_delayed_rejection (T : Type) (f : Timed T) (d : Nat) :
    Timeout (some f) d = Race [some f, some (timeoutArm T d)] ∧
    Timeout (some f) d =
      (if d < f.time then some (timeoutArm T d) else some f) ∧
    (timeoutArm T d).out = .error (.opTimeout d) ∧
    (Sleep d (GoErr.opTimeout d)).out = .ok (.opTimeout d) := by
  refine ⟨rfl, ?_, rfl, rfl⟩
  show Race [some f, some (timeoutArm T d)] = _
  by_cases h : d < f.time <;> simp [Race, timeoutArm, h]

/-- C5 witness: a future fulfilling at t=3 beats a deadline of 5, so
`Timeout` settles with it. -/
theorem timeout_races_delayed_rejection_witness :
    Timeout (some (⟨3, .ok 0⟩ : Timed Nat)) 5 = some ⟨3, .ok 0⟩ := by
  have h := (timeout_races_delayed_rejection Nat ⟨3, .ok 0⟩ 5).2.1
  rw [if_neg (by decide)] at h
  exact h

/-- C6: `Any` fulfills with the earliest input to fulfill (it is one of the
inputs, fulfilled, and no fulfilled input settles earlier); it rejects only
when every input rejects, and then its aggregate fault carries every
per-input fault. -/
theorem any_first_fulfill_or_aggregate (T : Type) (ps : List (Timed T)) :
    ((∃ p ∈ ps, okOut p.out = true) →
      ∃ w ∈ ps, Any ps = w ∧ okOut w.out = true ∧
        ∀ p ∈ ps, okOut p.out = true → w.time ≤ p.time) ∧
    ((∀ p ∈ ps, okOut p.out = false) →
      Any ps = ⟨maxTime ps, .error (.allRejected (faultsOf ps))⟩ ∧
      ∀ p ∈ ps, ∀ e, p.out = .error e → e ∈ faultsOf ps) ∧
    (∀ e, (Any ps).out = .error e → ∀ p ∈ ps, okOut p.out = false) := by
  refine ⟨?_, ?_, ?_⟩
  · rintro ⟨p, hp, hok⟩
    rcases hf : firstToFulfill ps with - | w
    · exact absurd (firstToFulfill_none hf p hp) (by simp [hok])
    · obtain ⟨hw, hwok, hwmin⟩ := firstToFulfill_some hf
      exact ⟨w, hw, by simp [Any, hf], hwok, hwmin⟩
  · intro hall
    rcases hf : firstToFulfill ps with - | w
    · refine ⟨by simp [Any, hf], ?_⟩
      intro p hp e he
      exact fault_mem_faultsOf hp he
    · obtain ⟨hw, hwok, -⟩ := firstToFulfill_some hf
      exact absurd (hall w hw) (by simp [hwok])
  · intro e he p hp
    rcases hf : firstToFulfill ps with - | w
    · exact firstToFulfill_none hf p hp
    · obtain ⟨hw, hwok, -⟩ := firstToFulfill_some hf
      have hw2 : Any ps = w := by simp [Any, hf]
      rw [hw2] at he
      rw [he] at hwok
      exact absurd hwok (by simp [okOut])

/-- Two inputs rejecting at t=1 and t=2, for the `Any` aggregate example. -/
def anyRejectPair : List (Timed Nat) :=
  [⟨1, .error (.errorf "e1")⟩, ⟨2, .error (.errorf "e2")⟩]

/-- One input rejecting at t=1 and one fulfilling at t=2, for the `Any`
first-fulfill example. -/
def anyMixedPair : List (Timed Nat) :=
  [⟨1, .error (.errorf "e1")⟩, ⟨2, .ok 9⟩]

/-- C6 witness: `Any(reject(e1), reject(e2))` rejects with an aggregate
containing both `e1` and `e2`, and `Any(reject(e1), resolve(9))` fulfills
with the fulfilled input. -/
theorem any_first_fulfill_or_aggregate_witness :
    (Any anyRejectPair =
      ⟨maxTime anyRejectPair, .error (.allRejected (faultsOf anyRejectPair))⟩ ∧
      GoErr.errorf "e1" ∈ faultsOf anyRejectPair ∧
      GoErr.errorf "e2" ∈ faultsOf anyRejectPair) ∧
    (∃ w ∈ anyMixedPair, Any anyMixedPair = w ∧ okOut w.out = true ∧
      ∀ p ∈ anyMixedPair, okOut p.out = true → w.time ≤ p.time) := by
  obtain ⟨-, h2, -⟩ := any_first_fulfill_or_aggregate Nat anyRejectPair
  obtain ⟨h1g, -, -⟩ := any_first_fulfill_or_aggregate Nat anyMixedPair
  obtain ⟨hEq, hMem⟩ := h2 (by decide)
  refine ⟨⟨hEq, ?_, ?_⟩,
    h1g ⟨⟨2, .ok 9⟩, List.Mem.tail _ (List.Mem.head _), rfl⟩⟩
  · exact hMem ⟨1, .error (.errorf "e1")⟩ (List.Mem.head _) (.errorf "e1") rfl
  · exact hMem ⟨2, .error (.errorf "e2")⟩
      (List.Mem.tail _ (List.Mem.head _)) (.errorf "e2") rfl

/-- C7: `AllSettled` never rejects: on any input list it fulfills, at the
latest input settlement instant, with one record per input in input order —
`{fulfilled, v}` for an input fulfilled with `v`, `{rejected, fault}` for a
rejected one. -/
theorem allSettled_never_rejects (T : Type) [Inhabited T]
    (ps : List (Timed T)) :
    ∃ rs, (AllSettled ps).out = .ok rs ∧ rs.length = ps.length ∧
      (AllSettled ps).time = maxTime ps ∧
      ∀ i p, ps.get? i = some p →
        (∀ v, p.out = .ok v → rs.get? i = some ⟨"fulfilled", v, none⟩) ∧
        (∀ e, p.out = .error e →
          rs.get? i = some ⟨"rejected", default, some e⟩) := by
  refine ⟨ps.map settleRecord, rfl, List.length_map _ _, rfl, ?_⟩
  intro i p hp
  constructor
  · intro v hv
    rw [List.get?_map, hp]
    simp [settleRecord, hv]
  · intro e he
    rw [List.get?_map, hp]
    simp [settleRecord, he]

/-- An input fulfilling at t=1 with 5 and one rejecting at t=2, for the
`AllSettled` example. -/
def settledPair : List (Timed Nat) := [⟨1, .ok 5⟩, ⟨2, .error (.errorf "boom")⟩]

/-- C7 witness: `AllSettled(f1_ok, f2_fails)` fulfills with the two records
`[{fulfilled, 5}, {rejected, boom}]` in input order. -/
theorem allSettled_never_rejects_witness :
    ∃ rs, (AllSettled settledPair).out = .ok rs ∧ rs.length = 2 ∧
      rs.get? 0 = some ⟨"fulfilled", 5, none⟩ ∧
      rs.get? 1 = some ⟨"rejected", 0, some (.errorf "boom")⟩ := by
  obtain ⟨rs, h1, h2, -, h4⟩ := allSettled_never_rejects Nat settledPair
  obtain ⟨h5, -⟩ := h4 0 ⟨1, .ok 5⟩ rfl
  obtain ⟨-, h6⟩ := h4 1 ⟨2, .error (.errorf "boom")⟩ rfl
  exact ⟨rs, h1, h2, h5 5 rfl, h6 (.errorf "boom") rfl⟩

/-- C10: `Race` of an empty input list spawns no goroutine, so its executor
selects forever: the derived future never settles, its sampled state is
`Pending` at every instant, and `Await` on it blocks forever.  `Race`
returns a promise, not an error: there is no zero-input precondition at the
interface. -/
theorem race_of_no_promises_never_settles :
    Race ([] : List (TFuture Nat)) = none ∧
    (∀ t, stateAt (Race ([] : List (TFuture Nat))) t = .Pending) ∧
    AwaitTimed (Race ([] : List (TFuture Nat))) = none :=
  ⟨rfl, fun _ => rfl, rfl⟩

/-- C9 witness: the monotonicity facts at `T = Nat`, with the `Await`
preservation conjunct discharged on the concrete promise `Resolve 3`. -/
theorem state_monotonic_settle_once_witness :
    (initPromise (T := Nat)).state = .Pending ∧
    (NewPromise (T := Nat) (.ok 1)).state = .Fulfilled ∧
    (⟨[3], [], [], PromiseState.Fulfilled, 3, none⟩ : Promise Nat).state =
      (Resolve (3 : Nat)).state := by
  obtain ⟨h1, -, -, ⟨h4, -, -⟩, -, -, -, -, hA⟩ :=
    state_monotonic_settle_once Nat (.ok 1) 1 (.errorf "x") "s"
  exact ⟨h1, h4, (hA (Resolve 3) (3, none) ⟨[3], [], [], .Fulfilled, 3, none⟩ rfl).1⟩

end PromiseGo
